import Mathlib

/-!
# Verification development for the conclave room-session engine

Shallow embedding of `crates/session/src/lib.rs` (the `Room` election and
quality-assessment engine) together with the small external value types it
consumes from `conclave_types` (a monotonically-incrementing term counter, a
totally-ordered knowledge score, a tri-state connection-to-leader status) and
the quality classifier from the repository's `connection_quality` module.

Modelling conventions:
* `u16` connection indices become `Nat` with arithmetic taken modulo
  `2^16` where the source increments them (`ConnectionIndex::next` wraps at
  the identifier-space boundary).
* `Instant` and `Duration` become `Nat` numbers of milliseconds; the source's
  `now - prev` on instants saturates at zero, matching `Nat` subtraction.
* The `HashMap<ConnectionIndex, Connection>` becomes an association list with
  insertion order as the (deterministic) iteration order.
* A Rust `panic!` / `unwrap` failure in an operation that returns a value is
  modelled with `Option`; where a panic happens after the receiver was already
  mutated, the operation returns the mutated state together with a failure
  flag, mirroring the state observable after unwinding.
-/

namespace ConclaveRoom

/-- Modelled from the spec: `Term` lives in the external `conclave_types`
crate (not under `src/`); its only operations are equality, ordering and
"advance to next value" on a monotonically-incrementing counter. -/
abbrev Term := Nat

/-- Modelled from the spec: `Knowledge` lives in the external
`conclave_types` crate; a totally-ordered scalar whose zero is `Knowledge(0)`. -/
abbrev Knowledge := Nat

/-- Instants are milliseconds; subtraction of instants saturates at zero. -/
abbrev Instant := Nat

/-- Modelled from the spec: tri-state leader-link status from
`conclave_types` (`unknown | connected | disconnected`); the constructor
names appear in `lib.rs`. -/
inductive ConnectionToLeader where
  | Unknown
  | Connected
  | Disconnected
deriving DecidableEq

/-- Modelled from the spec: the four-valued assessment of the quality
classifier (`insufficient_data`, `poor`, `acceptable`, `good`);
`RecommendDisconnect` is the source's name for `poor` (it appears in
`lib.rs`). -/
inductive QualityAssessment where
  | NotEnoughData
  | RecommendDisconnect
  | Acceptable
  | Good
deriving DecidableEq

inductive ConnectionState where
  | Online
  | Disconnected
deriving DecidableEq

/-- Modelled from the spec: the spec fixes no numeric value for the minimum
observation window of the rate estimator; one second is used here.  No claim
depends on the value. -/
def MINIMUM_MEASURE_WINDOW_MS : Nat := 1000

/-- Modelled from the spec: the `connection_quality` module (absent from
`src/`): a fixed-origin rate estimator plus the threshold classifier of
spec §4.1–§4.2.  The `f32` threshold is idealised as a rational. -/
structure ConnectionQuality where
  pings_per_second_threshold : ℚ
  windowStart : Instant
  pingCount : Nat
  assessment : QualityAssessment
deriving DecidableEq

def ConnectionQuality.new (threshold : ℚ) (time : Instant) : ConnectionQuality :=
  { pings_per_second_threshold := threshold
    windowStart := time
    pingCount := 0
    assessment := QualityAssessment.NotEnoughData }

/-- Modelled from the spec: `on_ping` only records the event; the assessment
is recomputed by `update` alone. -/
def ConnectionQuality.on_ping (q : ConnectionQuality) (_time : Instant) : ConnectionQuality :=
  { q with pingCount := q.pingCount + 1 }

/-- Modelled from the spec: recompute the assessment.  Below the minimum
observation window the result is insufficient-data; otherwise a rate under
the threshold is poor (`RecommendDisconnect`), a rate in
`[threshold, 2*threshold]` acceptable, and above that good. -/
def ConnectionQuality.update (q : ConnectionQuality) (now : Instant) : ConnectionQuality :=
  if now - q.windowStart < MINIMUM_MEASURE_WINDOW_MS then
    { q with assessment := QualityAssessment.NotEnoughData }
  else
    let rate : ℚ := (q.pingCount * 1000 : ℚ) / ((now - q.windowStart : Nat) : ℚ)
    if rate < q.pings_per_second_threshold then
      { q with assessment := QualityAssessment.RecommendDisconnect }
    else if rate ≤ 2 * q.pings_per_second_threshold then
      { q with assessment := QualityAssessment.Acceptable }
    else
      { q with assessment := QualityAssessment.Good }

/-- A room connection (`Connection` in `lib.rs`). -/
structure Connection where
  id : Nat
  quality : ConnectionQuality
  knowledge : Knowledge
  state : ConnectionState
  last_reported_term : Term
  has_connection_host : ConnectionToLeader
deriving DecidableEq

/-- `Connection::new` from `lib.rs`. -/
def Connection.new (connection_id : Nat) (term : Term) (time : Instant)
    (pings_per_second_threshold : ℚ) : Connection :=
  { id := connection_id
    quality := ConnectionQuality.new pings_per_second_threshold time
    knowledge := 0
    state := ConnectionState.Online
    last_reported_term := term
    has_connection_host := ConnectionToLeader.Unknown }

/-- `Connection::on_ping` from `lib.rs`. -/
def Connection.on_ping (c : Connection) (term : Term) (link : ConnectionToLeader)
    (knowledge : Knowledge) (time : Instant) : Connection :=
  { c with
    last_reported_term := term
    has_connection_host := link
    quality := c.quality.on_ping time
    knowledge := knowledge }

/-- `Connection::update` from `lib.rs`. -/
def Connection.update (c : Connection) (time : Instant) : Connection :=
  { c with quality := c.quality.update time }

/-- `Connection::assessment` from `lib.rs`. -/
def Connection.assessment (c : Connection) : QualityAssessment :=
  c.quality.assessment

/-- `RoomConfig` from `lib.rs`. -/
structure RoomConfig where
  allowed_to_remove_single_leader : Bool
  pings_per_second_threshold : ℚ
  disconnect_bad_connections : Bool
  destroy_disconnected_connections : Bool
deriving DecidableEq

/-- `RoomConfig::default` from `lib.rs`. -/
def RoomConfig.default : RoomConfig :=
  { allowed_to_remove_single_leader := false
    pings_per_second_threshold := 5
    disconnect_bad_connections := true
    destroy_disconnected_connections := false }

/-- Association-list model of the `HashMap<ConnectionIndex, Connection>`:
lookup. -/
def assocGet : List (Nat × Connection) → Nat → Option Connection
  | [], _ => none
  | (k, c) :: rest, key => if k = key then some c else assocGet rest key

/-- `HashMap::contains_key`. -/
def assocContains (l : List (Nat × Connection)) (key : Nat) : Bool :=
  (assocGet l key).isSome

/-- `HashMap::insert`: replace the entry if the key is present, otherwise
append it. -/
def assocInsert : List (Nat × Connection) → Nat → Connection → List (Nat × Connection)
  | [], key, c => [(key, c)]
  | (k, c0) :: rest, key, c =>
      if k = key then (key, c) :: rest else (k, c0) :: assocInsert rest key c

/-- `HashMap::remove`. -/
def assocRemove (l : List (Nat × Connection)) (key : Nat) : List (Nat × Connection) :=
  l.filter (fun p => decide (p.1 ≠ key))

/-- `ConnectionIndex` is a `u16`; `ConnectionIndex::next` wraps at the
identifier-space boundary `2^16`. -/
def IDENTIFIER_SPACE : Nat := 65536

def ABANDONED_TIMEOUT_MS : Nat := 2000

/-- `Room` from `lib.rs`. -/
structure Room where
  id : Nat
  connections : List (Nat × Connection)
  leader_index : Option Nat
  term : Term
  config : RoomConfig
  latest_ping_timestamp : Option Instant
deriving DecidableEq

/-- `Room::default` from `lib.rs`. -/
def Room.default : Room :=
  { id := 0
    connections := []
    leader_index := none
    term := 0
    config := RoomConfig.default
    latest_ping_timestamp := none }

/-- `Room::new_with_config` from `lib.rs`. -/
def Room.new_with_config (config : RoomConfig) : Room :=
  { Room.default with config := config }

/-- `Room::has_most_lost_connection_to_leader` from `lib.rs`: count the
connections reporting `Disconnected` on the room's current term and compare
with half the total connection count (integer division). -/
def Room.has_most_lost_connection_to_leader (room : Room) : Bool :=
  (room.connections.filter (fun p =>
      decide (p.2.has_connection_host = ConnectionToLeader.Disconnected ∧
              p.2.last_reported_term = room.term))).length
    > room.connections.length / 2

/-- Rust's `Iterator::max_by_key` returns the LAST maximal element; the fold
keeps the later element on ties. -/
def maxByKnowledge (l : List (Nat × Connection)) : Option Connection :=
  l.foldl
    (fun acc p =>
      match acc with
      | none => some p.2
      | some b => if b.knowledge ≤ p.2.knowledge then some p.2 else some b)
    none

/-- `Room::connection_with_most_knowledge_and_acceptable_quality` from
`lib.rs`: among the connections whose (internal) id differs from the
excluded index, the id of one with maximal knowledge. -/
def Room.connection_with_most_knowledge_and_acceptable_quality
    (room : Room) (exclude_index : Option Nat) : Option Nat :=
  (maxByKnowledge (room.connections.filter (fun p =>
      match exclude_index with
      | none => true
      | some ex => decide (p.2.id ≠ ex)))).map Connection.id

/-- `Room::switch_leader_to_best_knowledge_and_quality` from `lib.rs`:
reselect the leader excluding the outgoing one and advance the term. -/
def Room.switch_leader_to_best_knowledge_and_quality (room : Room) : Room :=
  { room with
    leader_index :=
      room.connection_with_most_knowledge_and_acceptable_quality room.leader_index
    term := room.term + 1 }

/-- `Room::change_leader_if_down_voted` from `lib.rs`. -/
def Room.change_leader_if_down_voted (room : Room) : Room × Bool :=
  match room.leader_index with
  | none => (room, false)
  | some _ =>
    if room.has_most_lost_connection_to_leader then
      (room.switch_leader_to_best_knowledge_and_quality, true)
    else
      (room, false)

/-- `Room::is_possble_to_switch_leader` from `lib.rs` (sic). -/
def Room.is_possble_to_switch_leader (room : Room) : Bool :=
  decide (room.connections.length > 1) || room.config.allowed_to_remove_single_leader

/-- `Room::switch_leader_if_non_responsive` from `lib.rs`.  The source
`unwrap`s the leader lookup; the `none` branch below corresponds to that
panic, which is unreachable whenever the leader invariant holds. -/
def Room.switch_leader_if_non_responsive (room : Room) : Room :=
  match room.leader_index with
  | none => room
  | some leader =>
    match assocGet room.connections leader with
    | none => room
    | some leader_connection =>
      if leader_connection.assessment = QualityAssessment.RecommendDisconnect ∧
          room.is_possble_to_switch_leader = true then
        room.switch_leader_to_best_knowledge_and_quality
      else
        room

/-- The scan loop of `Room::find_unique_connection_index`: try `start`,
`start+1`, ... (mod `2^16`); with fuel `IDENTIFIER_SPACE` the loop has tried
every id when the fuel runs out, which is exactly when the source panics
with "No unique connection index available". -/
def findUniqueFrom (conns : List (Nat × Connection)) (start : Nat) : Nat → Option Nat
  | 0 => none
  | fuel + 1 =>
    if assocContains conns start then
      findUniqueFrom conns ((start + 1) % IDENTIFIER_SPACE) fuel
    else
      some start

/-- `Room::find_unique_connection_index` from `lib.rs`; `none` is the
identifier-space-exhausted panic. -/
def Room.find_unique_connection_index (room : Room) : Option Nat :=
  findUniqueFrom room.connections room.id IDENTIFIER_SPACE

/-- `Room::create_connection` from `lib.rs`.  Note the source inserts the
new connection under `self.id` (the incremented hint), not under the id
returned by `find_unique_connection_index`, which it only stores in the
connection's `id` field.  Returns the new room and the returned index, or
`none` on identifier-space exhaustion. -/
def Room.create_connection (room : Room) (time : Instant) : Option (Room × Nat) :=
  let newId := (room.id + 1) % IDENTIFIER_SPACE
  let room1 := { room with id := newId }
  match room1.find_unique_connection_index with
  | none => none
  | some connection_id =>
    let connection :=
      Connection.new connection_id room1.term time room1.config.pings_per_second_threshold
    let conns := assocInsert room1.connections room1.id connection
    let leader :=
      match room1.leader_index with
      | none => some room1.id
      | some l => some l
    some ({ room1 with connections := conns, leader_index := leader }, room1.id)

/-- `Room::destroy_connection` from `lib.rs`: if the destroyed index is the
current leader, reselect first, then remove the entry unconditionally. -/
def Room.destroy_connection (room : Room) (connection_index : Nat) : Room :=
  let room1 :=
    match room.leader_index with
    | some leader_index =>
      if leader_index = connection_index then
        room.switch_leader_to_best_knowledge_and_quality
      else
        room
    | none => room
  { room1 with connections := assocRemove room1.connections connection_index }

/-- Step (1) of `Room::update`: refresh every connection's quality. -/
def Room.refresh_connections (room : Room) (time : Instant) : Room :=
  { room with connections := room.connections.map (fun p => (p.1, p.2.update time)) }

/-- The internal ids collected by `Room::update` for destruction: those of
the connections currently assessed `RecommendDisconnect`. -/
def Room.bad_connection_ids (room : Room) : List Nat :=
  (room.connections.filter (fun p =>
      decide (p.2.assessment = QualityAssessment.RecommendDisconnect))).map
    (fun p => p.2.id)

/-- Marking loop of `Room::update`: set the state of every
`RecommendDisconnect` connection to `Disconnected`. -/
def Room.mark_bad_connections (room : Room) : Room :=
  { room with
    connections := room.connections.map (fun p =>
      (p.1,
        if p.2.assessment = QualityAssessment.RecommendDisconnect then
          { p.2 with state := ConnectionState.Disconnected }
        else
          p.2)) }

/-- Step (2) of `Room::update`: when `disconnect_bad_connections` is set,
mark the bad connections, and when `destroy_disconnected_connections` is
also set, destroy them (in collection order, after the marking loop). -/
def Room.disconnect_phase (room : Room) : Room :=
  if room.config.disconnect_bad_connections then
    let badIds := room.bad_connection_ids
    let room1 := room.mark_bad_connections
    if room.config.destroy_disconnected_connections then
      badIds.foldl Room.destroy_connection room1
    else
      room1
  else
    room

/-- Steps (3)–(4) of `Room::update`: the down-vote check, and the
non-responsive-leader check only when no down-vote occurred. -/
def Room.election_phase (room : Room) : Room :=
  let result := room.change_leader_if_down_voted
  if result.2 then result.1 else result.1.switch_leader_if_non_responsive

/-- `Room::update` from `lib.rs`. -/
def Room.update (room : Room) (time : Instant) : Room :=
  ((room.refresh_connections time).disconnect_phase).election_phase

/-- `Room::is_abandoned` from `lib.rs`. -/
def Room.is_abandoned (room : Room) (now : Instant) : Bool :=
  match room.latest_ping_timestamp with
  | none => true
  | some prev => now - prev > ABANDONED_TIMEOUT_MS

/-- `Room::on_ping` from `lib.rs`.  The source writes
`latest_ping_timestamp` first and then `unwrap`s the connection lookup; on
an unknown id the panic therefore leaves the timestamp already mutated, so
the failure case returns that mutated state with `false`. -/
def Room.on_ping (room : Room) (connection_index : Nat) (term : Term)
    (has_connection_to_host : ConnectionToLeader) (knowledge : Knowledge)
    (time : Instant) : Room × Bool :=
  let room1 := { room with latest_ping_timestamp := some time }
  match assocGet room1.connections connection_index with
  | none => (room1, false)
  | some c =>
    let room2 :=
      { room1 with
        connections :=
          assocInsert room1.connections connection_index
            (c.on_ping term has_connection_to_host knowledge time) }
    (room2.update time, true)

/-- Keys of the connection registry. -/
def Room.keyList (room : Room) : List Nat :=
  room.connections.map Prod.fst

/-- The leader, when present, keys a live connection. -/
def Room.leaderLive (room : Room) : Prop :=
  match room.leader_index with
  | none => True
  | some l => l ∈ room.keyList

/-- Well-formedness of the registry as a map: keys are distinct and every
connection's internal id equals its key (true of every state the source can
reach before the identifier space wraps around). -/
def Room.wf (room : Room) : Prop :=
  room.keyList.Nodup ∧ ∀ p ∈ room.connections, p.2.id = p.1

instance (room : Room) : Decidable room.leaderLive := by
  unfold Room.leaderLive
  exact match room.leader_index with
  | none => inferInstanceAs (Decidable True)
  | some l => inferInstanceAs (Decidable (l ∈ room.keyList))

instance (room : Room) : Decidable room.wf := by
  unfold Room.wf
  infer_instance

end ConclaveRoom

namespace ConclaveRoom

/-! ## Lemmas about the association-list registry -/

theorem assocGet_isSome_iff {l : List (Nat × Connection)} {k : Nat} :
    (assocGet l k).isSome = true ↔ k ∈ l.map Prod.fst := by
  induction l with
  | nil => simp [assocGet]
  | cons p rest ih =>
    obtain ⟨k0, c0⟩ := p
    simp only [assocGet, List.map_cons, List.mem_cons]
    by_cases h : k0 = k
    · subst h
      simp
    · rw [if_neg h, ih]
      constructor
      · exact fun hm => Or.inr hm
      · rintro (rfl | hm)
        · exact absurd rfl h
        · exact hm

theorem mem_keys_of_assocGet {l : List (Nat × Connection)} {k : Nat} {c : Connection}
    (h : assocGet l k = some c) : k ∈ l.map Prod.fst := by
  rw [← assocGet_isSome_iff, h]
  rfl

theorem assocGet_eq_some_of_mem_keys {l : List (Nat × Connection)} {k : Nat}
    (h : k ∈ l.map Prod.fst) : ∃ c, assocGet l k = some c := by
  rw [← assocGet_isSome_iff] at h
  exact Option.isSome_iff_exists.mp h

theorem mem_of_assocGet_eq_some {l : List (Nat × Connection)} {k : Nat} {c : Connection}
    (h : assocGet l k = some c) : (k, c) ∈ l := by
  induction l with
  | nil => simp [assocGet] at h
  | cons p rest ih =>
    obtain ⟨k0, c0⟩ := p
    simp only [assocGet] at h
    by_cases hk : k0 = k
    · subst hk
      rw [if_pos rfl] at h
      exact Option.some.inj h ▸ List.mem_cons_self _ _
    · rw [if_neg hk] at h
      exact List.mem_cons_of_mem _ (ih h)

theorem mem_map_fst_assocRemove {l : List (Nat × Connection)} {k a : Nat} :
    a ∈ (assocRemove l k).map Prod.fst ↔ a ∈ l.map Prod.fst ∧ a ≠ k := by
  simp only [assocRemove, List.mem_map, List.mem_filter, decide_eq_true_eq]
  constructor
  · rintro ⟨p, ⟨hp, hpk⟩, rfl⟩
    exact ⟨⟨p, hp, rfl⟩, hpk⟩
  · rintro ⟨⟨p, hp, rfl⟩, hak⟩
    exact ⟨p, ⟨hp, hak⟩, rfl⟩

theorem nodup_map_fst_assocRemove {l : List (Nat × Connection)} {k : Nat}
    (h : (l.map Prod.fst).Nodup) : ((assocRemove l k).map Prod.fst).Nodup :=
  ((List.filter_sublist l).map Prod.fst).nodup h

theorem mem_of_mem_assocRemove {l : List (Nat × Connection)} {k : Nat} {p : Nat × Connection}
    (h : p ∈ assocRemove l k) : p ∈ l :=
  List.mem_of_mem_filter h

theorem assocGet_assocInsert_self (l : List (Nat × Connection)) (k : Nat) (c : Connection) :
    assocGet (assocInsert l k c) k = some c := by
  induction l with
  | nil => simp [assocInsert, assocGet]
  | cons p rest ih =>
    obtain ⟨k0, c0⟩ := p
    simp only [assocInsert]
    by_cases h : k0 = k
    · rw [if_pos h]
      simp [assocGet]
    · rw [if_neg h]
      simp only [assocGet, if_neg h]
      exact ih

theorem mem_assocInsert {l : List (Nat × Connection)} {k : Nat} {c : Connection}
    {p : Nat × Connection} (h : p ∈ assocInsert l k c) : p = (k, c) ∨ p ∈ l := by
  induction l with
  | nil => simpa [assocInsert] using h
  | cons q rest ih =>
    obtain ⟨k0, c0⟩ := q
    simp only [assocInsert] at h
    by_cases hk : k0 = k
    · rw [if_pos hk] at h
      rcases List.mem_cons.mp h with h | h
      · exact Or.inl h
      · exact Or.inr (List.mem_cons_of_mem _ h)
    · rw [if_neg hk] at h
      rcases List.mem_cons.mp h with h | h
      · exact Or.inr (h ▸ List.mem_cons_self _ _)
      · rcases ih h with h | h
        · exact Or.inl h
        · exact Or.inr (List.mem_cons_of_mem _ h)

theorem mem_map_fst_assocInsert {l : List (Nat × Connection)} {k : Nat} {c : Connection}
    {a : Nat} : a ∈ (assocInsert l k c).map Prod.fst ↔ a = k ∨ a ∈ l.map Prod.fst := by
  induction l with
  | nil => simp [assocInsert]
  | cons p rest ih =>
    obtain ⟨k0, c0⟩ := p
    simp only [assocInsert]
    by_cases h : k0 = k
    · subst h
      rw [if_pos rfl]
      simp only [List.map_cons, List.mem_cons]
      constructor
      · rintro (rfl | hm)
        · exact Or.inl rfl
        · exact Or.inr (Or.inr hm)
      · rintro (rfl | rfl | hm)
        · exact Or.inl rfl
        · exact Or.inl rfl
        · exact Or.inr hm
    · rw [if_neg h]
      simp only [List.map_cons, List.mem_cons, ih]
      constructor
      · rintro (rfl | rfl | hm)
        · exact Or.inr (Or.inl rfl)
        · exact Or.inl rfl
        · exact Or.inr (Or.inr hm)
      · rintro (rfl | rfl | hm)
        · exact Or.inr (Or.inl rfl)
        · exact Or.inl rfl
        · exact Or.inr (Or.inr hm)

theorem nodup_map_fst_assocInsert {l : List (Nat × Connection)} {k : Nat} {c : Connection}
    (h : (l.map Prod.fst).Nodup) : ((assocInsert l k c).map Prod.fst).Nodup := by
  induction l with
  | nil => simp [assocInsert]
  | cons p rest ih =>
    obtain ⟨k0, c0⟩ := p
    simp only [List.map_cons, List.nodup_cons] at h
    simp only [assocInsert]
    by_cases hk : k0 = k
    · subst hk
      rw [if_pos rfl]
      simp only [List.map_cons, List.nodup_cons]
      exact h
    · rw [if_neg hk]
      simp only [List.map_cons, List.nodup_cons]
      refine ⟨fun hm => ?_, ih h.2⟩
      rcases mem_map_fst_assocInsert.mp hm with rfl | hm
      · exact hk rfl
      · exact h.1 hm

end ConclaveRoom

namespace ConclaveRoom

/-! ## Lemmas about leader selection -/

theorem foldl_max_mem (f : Option Connection → Nat × Connection → Option Connection)
    (hf : ∀ acc p, f acc p = acc ∨ f acc p = some p.2) :
    ∀ (l : List (Nat × Connection)) (acc : Option Connection) (c : Connection),
      l.foldl f acc = some c → acc = some c ∨ c ∈ l.map Prod.snd := by
  intro l
  induction l with
  | nil =>
    intro acc c h
    exact Or.inl h
  | cons p rest ih =>
    intro acc c h
    simp only [List.foldl_cons] at h
    rcases ih (f acc p) c h with h1 | h1
    · rcases hf acc p with h2 | h2
      · exact Or.inl (h2 ▸ h1)
      · rw [h2] at h1
        exact Or.inr (List.mem_cons.mpr (Or.inl (Option.some.inj h1).symm))
    · exact Or.inr (List.mem_cons.mpr (Or.inr h1))

theorem maxByKnowledge_mem {l : List (Nat × Connection)} {c : Connection}
    (h : maxByKnowledge l = some c) : c ∈ l.map Prod.snd := by
  have hf : ∀ (acc : Option Connection) (p : Nat × Connection),
      (fun acc p =>
        match acc with
        | none => some p.2
        | some b => if b.knowledge ≤ p.2.knowledge then some p.2 else some b) acc p = acc ∨
      (fun acc p =>
        match acc with
        | none => some p.2
        | some b => if b.knowledge ≤ p.2.knowledge then some p.2 else some b) acc p = some p.2 := by
    intro acc p
    match acc with
    | none => exact Or.inr rfl
    | some b =>
      by_cases hb : b.knowledge ≤ p.2.knowledge
      · exact Or.inr (by simp [hb])
      · exact Or.inl (by simp [hb])
  rcases foldl_max_mem _ hf l none c h with h1 | h1
  · exact absurd h1 (by simp)
  · exact h1

/-- Anything `connection_with_most_knowledge_and_acceptable_quality` returns
is the internal id of a live connection and differs from the excluded index. -/
theorem best_candidate_spec {room : Room} {ex : Option Nat} {m : Nat}
    (h : room.connection_with_most_knowledge_and_acceptable_quality ex = some m) :
    ∃ p, p ∈ room.connections ∧ p.2.id = m ∧ ∀ e, ex = some e → m ≠ e := by
  unfold Room.connection_with_most_knowledge_and_acceptable_quality at h
  rcases Option.map_eq_some'.mp h with ⟨c, hc, hcid⟩
  rcases List.mem_map.mp (maxByKnowledge_mem hc) with ⟨p, hp, hpc⟩
  rcases List.mem_filter.mp hp with ⟨hpl, hpf⟩
  refine ⟨p, hpl, hpc ▸ hcid, ?_⟩
  rintro e rfl
  simp only [decide_eq_true_eq] at hpf
  exact fun hme => hpf (by rw [hpc, hcid, hme])

theorem switch_connections (room : Room) :
    room.switch_leader_to_best_knowledge_and_quality.connections = room.connections := rfl

theorem switch_term (room : Room) :
    room.switch_leader_to_best_knowledge_and_quality.term = room.term + 1 := rfl

theorem switch_keyList (room : Room) :
    room.switch_leader_to_best_knowledge_and_quality.keyList = room.keyList := rfl

theorem switch_leader_eq (room : Room) :
    room.switch_leader_to_best_knowledge_and_quality.leader_index =
      room.connection_with_most_knowledge_and_acceptable_quality room.leader_index := rfl

theorem switch_ne_self (room : Room) :
    room.switch_leader_to_best_knowledge_and_quality ≠ room := by
  intro h
  have h2 := congrArg Room.term h
  rw [switch_term] at h2
  exact Nat.succ_ne_self room.term h2

/-- Under well-formedness the reselected leader keys a live connection and
differs from the excluded index. -/
theorem best_candidate_mem_keys {room : Room} {ex : Option Nat} {m : Nat}
    (hwf : room.wf) (h : room.connection_with_most_knowledge_and_acceptable_quality ex = some m) :
    m ∈ room.keyList ∧ ∀ e, ex = some e → m ≠ e := by
  rcases best_candidate_spec h with ⟨p, hp, hid, hne⟩
  refine ⟨?_, hne⟩
  have := hwf.2 p hp
  rw [← hid, this]
  exact List.mem_map.mpr ⟨p, hp, rfl⟩

theorem leaderLive_iff (room : Room) :
    room.leaderLive ↔ ∀ l, room.leader_index = some l → l ∈ room.keyList := by
  unfold Room.leaderLive
  cases h : room.leader_index with
  | none => simp [h]
  | some l => simp [h]

theorem switch_leaderLive (room : Room) (hwf : room.wf) :
    room.switch_leader_to_best_knowledge_and_quality.leaderLive := by
  rw [leaderLive_iff]
  intro m hm
  rw [switch_leader_eq] at hm
  rw [switch_keyList]
  exact (best_candidate_mem_keys hwf hm).1

theorem switch_new_leader_ne_old {room : Room} {l m : Nat}
    (h : room.leader_index = some l)
    (hm : room.switch_leader_to_best_knowledge_and_quality.leader_index = some m) :
    m ≠ l := by
  rw [switch_leader_eq, h] at hm
  exact (best_candidate_spec hm).choose_spec.2.2 l rfl

end ConclaveRoom

namespace ConclaveRoom

/-! ## Lemmas about the individual room operations -/

theorem destroy_connections (room : Room) (i : Nat) :
    (room.destroy_connection i).connections = assocRemove room.connections i := by
  unfold Room.destroy_connection
  cases h : room.leader_index with
  | none => rfl
  | some L =>
    by_cases hLi : L = i
    · simp [hLi, switch_connections]
    · simp [hLi]

theorem destroy_keyList (room : Room) (i : Nat) {a : Nat} :
    a ∈ (room.destroy_connection i).keyList ↔ a ∈ room.keyList ∧ a ≠ i := by
  unfold Room.keyList
  rw [destroy_connections]
  exact mem_map_fst_assocRemove

theorem destroy_of_leader_none (room : Room) (i : Nat) (h : room.leader_index = none) :
    (room.destroy_connection i).leader_index = none ∧
    (room.destroy_connection i).term = room.term := by
  constructor
  · simp [Room.destroy_connection, h]
  · simp [Room.destroy_connection, h]

theorem destroy_of_leader_ne (room : Room) {i L : Nat} (h : room.leader_index = some L)
    (hne : L ≠ i) :
    (room.destroy_connection i).leader_index = some L ∧
    (room.destroy_connection i).term = room.term := by
  constructor
  · simp [Room.destroy_connection, h, hne]
  · simp [Room.destroy_connection, h, hne]

theorem destroy_of_leader_eq (room : Room) {L : Nat} (h : room.leader_index = some L) :
    (room.destroy_connection L).leader_index =
      room.connection_with_most_knowledge_and_acceptable_quality (some L) ∧
    (room.destroy_connection L).term = room.term + 1 := by
  constructor
  · simp [Room.destroy_connection, h, switch_leader_eq]
  · simp [Room.destroy_connection, h, switch_term]

theorem destroy_preserves_wf (room : Room) (i : Nat) (hwf : room.wf) :
    (room.destroy_connection i).wf := by
  constructor
  · show ((room.destroy_connection i).connections.map Prod.fst).Nodup
    rw [destroy_connections]
    exact nodup_map_fst_assocRemove hwf.1
  · intro p hp
    rw [destroy_connections] at hp
    exact hwf.2 p (mem_of_mem_assocRemove hp)

theorem destroy_preserves_leaderLive (room : Room) (i : Nat)
    (hwf : room.wf) (hlive : room.leaderLive) :
    (room.destroy_connection i).leaderLive := by
  rw [leaderLive_iff]
  intro m hm
  rw [destroy_keyList]
  cases hL : room.leader_index with
  | none =>
    rw [(destroy_of_leader_none room i hL).1] at hm
    exact absurd hm (by simp)
  | some L =>
    by_cases hLi : L = i
    · subst hLi
      rw [(destroy_of_leader_eq room hL).1] at hm
      have := best_candidate_mem_keys hwf hm
      exact ⟨this.1, this.2 L rfl⟩
    · rw [(destroy_of_leader_ne room hL hLi).1] at hm
      have hmL : m = L := (Option.some.inj hm).symm
      subst hmL
      exact ⟨(leaderLive_iff room).mp hlive m hL, hLi⟩

theorem refresh_keyList (room : Room) (t : Instant) :
    (room.refresh_connections t).keyList = room.keyList := by
  unfold Room.refresh_connections Room.keyList
  simp [List.map_map]

theorem refresh_fields (room : Room) (t : Instant) :
    (room.refresh_connections t).leader_index = room.leader_index ∧
    (room.refresh_connections t).term = room.term ∧
    (room.refresh_connections t).config = room.config := ⟨rfl, rfl, rfl⟩

theorem refresh_preserves_wf (room : Room) (t : Instant) (hwf : room.wf) :
    (room.refresh_connections t).wf := by
  constructor
  · show ((room.refresh_connections t).connections.map Prod.fst).Nodup
    have : (room.refresh_connections t).keyList = room.keyList := refresh_keyList room t
    unfold Room.keyList at this
    rw [this]
    exact hwf.1
  · intro p hp
    unfold Room.refresh_connections at hp
    rcases List.mem_map.mp hp with ⟨q, hq, hqp⟩
    rw [← hqp]
    exact hwf.2 q hq

theorem refresh_preserves_leaderLive (room : Room) (t : Instant) (hlive : room.leaderLive) :
    (room.refresh_connections t).leaderLive := by
  rw [leaderLive_iff]
  intro l hl
  rw [refresh_keyList]
  exact (leaderLive_iff room).mp hlive l hl

theorem mark_keyList (room : Room) :
    room.mark_bad_connections.keyList = room.keyList := by
  unfold Room.mark_bad_connections Room.keyList
  simp [List.map_map]

theorem mark_fields (room : Room) :
    room.mark_bad_connections.leader_index = room.leader_index ∧
    room.mark_bad_connections.term = room.term ∧
    room.mark_bad_connections.config = room.config := ⟨rfl, rfl, rfl⟩

theorem mark_preserves_wf (room : Room) (hwf : room.wf) :
    room.mark_bad_connections.wf := by
  constructor
  · show (room.mark_bad_connections.connections.map Prod.fst).Nodup
    have : room.mark_bad_connections.keyList = room.keyList := mark_keyList room
    unfold Room.keyList at this
    rw [this]
    exact hwf.1
  · intro p hp
    unfold Room.mark_bad_connections at hp
    rcases List.mem_map.mp hp with ⟨q, hq, hqp⟩
    rw [← hqp]
    by_cases hqa : q.2.assessment = QualityAssessment.RecommendDisconnect
    · simp only [if_pos hqa]
      exact hwf.2 q hq
    · simp only [if_neg hqa]
      exact hwf.2 q hq

theorem mark_preserves_leaderLive (room : Room) (hlive : room.leaderLive) :
    room.mark_bad_connections.leaderLive := by
  rw [leaderLive_iff]
  intro l hl
  rw [mark_keyList]
  exact (leaderLive_iff room).mp hlive l hl

theorem foldl_destroy_preserves (P : Room → Prop)
    (hstep : ∀ r i, P r → P (r.destroy_connection i)) :
    ∀ (ids : List Nat) (r : Room), P r → P (ids.foldl Room.destroy_connection r) := by
  intro ids
  induction ids with
  | nil => exact fun r hr => hr
  | cons i rest ih => exact fun r hr => ih _ (hstep r i hr)

end ConclaveRoom

namespace ConclaveRoom

/-! ## Control flow of the election phase -/

theorem change_leader_cases (room : Room) :
    room.change_leader_if_down_voted = (room, false) ∨
    (room.change_leader_if_down_voted =
        (room.switch_leader_to_best_knowledge_and_quality, true) ∧
      ∃ l, room.leader_index = some l) := by
  unfold Room.change_leader_if_down_voted
  cases h : room.leader_index with
  | none => exact Or.inl rfl
  | some l =>
    by_cases hd : room.has_most_lost_connection_to_leader
    · exact Or.inr ⟨by simp [hd], l, rfl⟩
    · exact Or.inl (by simp [hd])

theorem non_responsive_cases (room : Room) :
    room.switch_leader_if_non_responsive = room ∨
    (room.switch_leader_if_non_responsive =
        room.switch_leader_to_best_knowledge_and_quality ∧
      ∃ l, room.leader_index = some l) := by
  unfold Room.switch_leader_if_non_responsive
  split
  next => exact Or.inl rfl
  next l hl =>
    split
    next => exact Or.inl rfl
    next c hc =>
      split
      next h2 => exact Or.inr ⟨rfl, l, hl⟩
      next h2 => exact Or.inl rfl

theorem election_phase_cases (room : Room) :
    room.election_phase = room ∨
    (room.election_phase = room.switch_leader_to_best_knowledge_and_quality ∧
      ∃ l, room.leader_index = some l) := by
  unfold Room.election_phase
  rcases change_leader_cases room with h | ⟨h, l, hl⟩
  · rw [h]
    simp only [Bool.false_eq_true, if_false]
    rcases non_responsive_cases room with h2 | ⟨h2, l, hl⟩
    · exact Or.inl h2
    · exact Or.inr ⟨h2, l, hl⟩
  · rw [h]
    exact Or.inr ⟨rfl, l, hl⟩

theorem change_leader_of_leader_none (room : Room) (h : room.leader_index = none) :
    room.change_leader_if_down_voted = (room, false) := by
  unfold Room.change_leader_if_down_voted
  rw [h]

theorem non_responsive_of_leader_none (room : Room) (h : room.leader_index = none) :
    room.switch_leader_if_non_responsive = room := by
  unfold Room.switch_leader_if_non_responsive
  rw [h]

theorem election_phase_of_leader_none (room : Room) (h : room.leader_index = none) :
    room.election_phase = room := by
  unfold Room.election_phase
  rw [change_leader_of_leader_none room h]
  simp only [Bool.false_eq_true, if_false]
  exact non_responsive_of_leader_none room h

theorem election_phase_connections (room : Room) :
    room.election_phase.connections = room.connections := by
  rcases election_phase_cases room with h | ⟨h, _⟩
  · rw [h]
  · rw [h, switch_connections]

theorem election_phase_preserves_wf (room : Room) (hwf : room.wf) :
    room.election_phase.wf := by
  rcases election_phase_cases room with h | ⟨h, _⟩
  · rw [h]; exact hwf
  · rw [h]
    constructor
    · show (room.switch_leader_to_best_knowledge_and_quality.connections.map Prod.fst).Nodup
      rw [switch_connections]
      exact hwf.1
    · intro p hp
      rw [switch_connections] at hp
      exact hwf.2 p hp

theorem election_phase_preserves_leaderLive (room : Room)
    (hwf : room.wf) (hlive : room.leaderLive) :
    room.election_phase.leaderLive := by
  rcases election_phase_cases room with h | ⟨h, _⟩
  · rw [h]; exact hlive
  · rw [h]
    exact switch_leaderLive room hwf

/-! ## Preservation through the disconnect phase and the full sweep -/

theorem disconnect_phase_preserves (room : Room) (hwf : room.wf) (hlive : room.leaderLive) :
    room.disconnect_phase.wf ∧ room.disconnect_phase.leaderLive := by
  unfold Room.disconnect_phase
  by_cases hd : room.config.disconnect_bad_connections = true
  · rw [if_pos hd]
    by_cases hx : room.config.destroy_disconnected_connections = true
    · rw [if_pos hx]
      refine foldl_destroy_preserves (fun r => r.wf ∧ r.leaderLive) ?_ _ _ ?_
      · exact fun r i hr => ⟨destroy_preserves_wf r i hr.1,
          destroy_preserves_leaderLive r i hr.1 hr.2⟩
      · exact ⟨mark_preserves_wf room hwf, mark_preserves_leaderLive room hlive⟩
    · rw [if_neg hx]
      exact ⟨mark_preserves_wf room hwf, mark_preserves_leaderLive room hlive⟩
  · rw [if_neg hd]
    exact ⟨hwf, hlive⟩

theorem update_preserves_wf_leaderLive (room : Room) (t : Instant)
    (hwf : room.wf) (hlive : room.leaderLive) :
    (room.update t).wf ∧ (room.update t).leaderLive := by
  unfold Room.update
  have h1 : (room.refresh_connections t).wf := refresh_preserves_wf room t hwf
  have h2 : (room.refresh_connections t).leaderLive := refresh_preserves_leaderLive room t hlive
  have h3 := disconnect_phase_preserves (room.refresh_connections t) h1 h2
  exact ⟨election_phase_preserves_wf _ h3.1,
    election_phase_preserves_leaderLive _ h3.1 h3.2⟩

theorem disconnect_phase_of_leader_none (room : Room) (h : room.leader_index = none) :
    room.disconnect_phase.leader_index = none ∧ room.disconnect_phase.term = room.term := by
  unfold Room.disconnect_phase
  by_cases hd : room.config.disconnect_bad_connections = true
  · rw [if_pos hd]
    by_cases hx : room.config.destroy_disconnected_connections = true
    · rw [if_pos hx]
      refine foldl_destroy_preserves
        (fun r => r.leader_index = none ∧ r.term = room.term) ?_ _ _ ?_
      · intro r i hr
        rcases destroy_of_leader_none r i hr.1 with ⟨ha, hb⟩
        exact ⟨ha, hb.trans hr.2⟩
      · exact ⟨h, rfl⟩
    · rw [if_neg hx]
      exact ⟨h, rfl⟩
  · rw [if_neg hd]
    exact ⟨h, rfl⟩

/-- Shared helper: a leaderless room stays leaderless with an unchanged term
through a full `update` sweep. -/
theorem update_of_leader_none (room : Room) (t : Instant) (h : room.leader_index = none) :
    (room.update t).leader_index = none ∧ (room.update t).term = room.term := by
  unfold Room.update
  have h1 : (room.refresh_connections t).leader_index = none := h
  rcases disconnect_phase_of_leader_none (room.refresh_connections t) h1 with ⟨h2, h3⟩
  rw [election_phase_of_leader_none _ h2]
  exact ⟨h2, h3⟩

end ConclaveRoom

namespace ConclaveRoom

/-! ## The term/leader coupling invariant threaded through an update sweep -/

/-- Invariant for the sweep, relative to the initial leader `a` and initial
term `t0`: either nothing has changed yet, or the term has strictly
advanced, the original leader's key has been removed, and the leader no
longer points at it. -/
def TermInv (a : Nat) (t0 : Term) (r : Room) : Prop :=
  r.wf ∧ r.leaderLive ∧ t0 ≤ r.term ∧
    ((r.leader_index = some a ∧ r.term = t0) ∨
     (t0 < r.term ∧ a ∉ r.keyList ∧ r.leader_index ≠ some a))

theorem TermInv_destroy {a : Nat} {t0 : Term} {r : Room} (i : Nat)
    (h : TermInv a t0 r) : TermInv a t0 (r.destroy_connection i) := by
  obtain ⟨hwf, hlive, hmono, hdisj⟩ := h
  refine ⟨destroy_preserves_wf r i hwf, destroy_preserves_leaderLive r i hwf hlive, ?_, ?_⟩
  · cases hL : r.leader_index with
    | none => rw [(destroy_of_leader_none r i hL).2]; exact hmono
    | some L =>
      by_cases hLi : L = i
      · subst hLi
        rw [(destroy_of_leader_eq r hL).2]
        exact hmono.trans (Nat.le_succ _)
      · rw [(destroy_of_leader_ne r hL hLi).2]; exact hmono
  · cases hL : r.leader_index with
    | none =>
      rcases hdisj with ⟨hla, _⟩ | ⟨h1, h2, h3⟩
      · rw [hL] at hla; cases hla
      · refine Or.inr ⟨?_, ?_, ?_⟩
        · rw [(destroy_of_leader_none r i hL).2]; exact h1
        · intro hm
          exact h2 ((destroy_keyList r i).mp hm).1
        · rw [(destroy_of_leader_none r i hL).1]; simp
    | some L =>
      by_cases hLi : L = i
      · subst hLi
        refine Or.inr ⟨?_, ?_, ?_⟩
        · rw [(destroy_of_leader_eq r hL).2]
          exact Nat.lt_succ_of_le hmono
        · intro hm
          have hm2 := (destroy_keyList r L).mp hm
          rcases hdisj with ⟨hla, _⟩ | ⟨_, h2, _⟩
          · rw [hL] at hla
            exact hm2.2 (Option.some.inj hla).symm
          · exact h2 hm2.1
        · intro hla
          rw [(destroy_of_leader_eq r hL).1] at hla
          rcases hdisj with ⟨hla0, _⟩ | ⟨_, h2, _⟩
          · rw [hL] at hla0
            have haL : a = L := (Option.some.inj hla0).symm
            rcases best_candidate_spec hla with ⟨p, _, _, hne⟩
            exact hne L rfl (haL ▸ rfl)
          · exact h2 (best_candidate_mem_keys hwf hla).1
      · rcases destroy_of_leader_ne r hL hLi with ⟨ha, hb⟩
        rcases hdisj with ⟨hla, ht⟩ | ⟨h1, h2, h3⟩
        · rw [hL] at hla
          exact Or.inl ⟨by rw [ha, ← hla], by rw [hb]; exact ht⟩
        · refine Or.inr ⟨by rw [hb]; exact h1, ?_, ?_⟩
          · intro hm
            exact h2 ((destroy_keyList r i).mp hm).1
          · rw [ha]
            intro hc
            exact h3 (by rw [hL, Option.some.inj hc])

theorem TermInv_refresh {a : Nat} {t0 : Term} {room : Room} (t : Instant)
    (h : TermInv a t0 room) : TermInv a t0 (room.refresh_connections t) := by
  obtain ⟨hwf, hlive, hmono, hdisj⟩ := h
  refine ⟨refresh_preserves_wf room t hwf, refresh_preserves_leaderLive room t hlive,
    hmono, ?_⟩
  rcases hdisj with ⟨h1, h2⟩ | ⟨h1, h2, h3⟩
  · exact Or.inl ⟨h1, h2⟩
  · refine Or.inr ⟨h1, ?_, h3⟩
    rw [refresh_keyList]
    exact h2

theorem TermInv_mark {a : Nat} {t0 : Term} {room : Room}
    (h : TermInv a t0 room) : TermInv a t0 room.mark_bad_connections := by
  obtain ⟨hwf, hlive, hmono, hdisj⟩ := h
  refine ⟨mark_preserves_wf room hwf, mark_preserves_leaderLive room hlive, hmono, ?_⟩
  rcases hdisj with ⟨h1, h2⟩ | ⟨h1, h2, h3⟩
  · exact Or.inl ⟨h1, h2⟩
  · refine Or.inr ⟨h1, ?_, h3⟩
    rw [mark_keyList]
    exact h2

theorem TermInv_disconnect_phase {a : Nat} {t0 : Term} {room : Room}
    (h : TermInv a t0 room) : TermInv a t0 room.disconnect_phase := by
  unfold Room.disconnect_phase
  by_cases hd : room.config.disconnect_bad_connections = true
  · rw [if_pos hd]
    by_cases hx : room.config.destroy_disconnected_connections = true
    · rw [if_pos hx]
      exact foldl_destroy_preserves (TermInv a t0)
        (fun r i hr => TermInv_destroy i hr) _ _ (TermInv_mark h)
    · rw [if_neg hx]
      exact TermInv_mark h
  · rw [if_neg hd]
    exact h

theorem TermInv_election_phase {a : Nat} {t0 : Term} {r : Room}
    (h : TermInv a t0 r) :
    t0 ≤ r.election_phase.term ∧
      (r.election_phase.leader_index = some a → r.election_phase.term = t0) := by
  obtain ⟨hwf, _, hmono, hdisj⟩ := h
  rcases election_phase_cases r with he | ⟨he, l, hl⟩
  · rw [he]
    refine ⟨hmono, fun hla => ?_⟩
    rcases hdisj with ⟨_, h2⟩ | ⟨_, _, h3⟩
    · exact h2
    · exact absurd hla h3
  · rw [he]
    refine ⟨by rw [switch_term]; exact hmono.trans (Nat.le_succ _), fun hla => ?_⟩
    exfalso
    have hne := switch_new_leader_ne_old hl hla
    rcases hdisj with ⟨hla0, _⟩ | ⟨_, h2, _⟩
    · rw [hl] at hla0
      exact hne (Option.some.inj hla0).symm
    · rw [switch_leader_eq, hl] at hla
      exact h2 ((best_candidate_mem_keys hwf hla).1)

/-- Shared helper: across a full `update` sweep the term is monotone and an
unchanged leader forces an unchanged term. -/
theorem update_term_lemma (room : Room) (t : Instant)
    (hwf : room.wf) (hlive : room.leaderLive) :
    room.term ≤ (room.update t).term ∧
      ((room.update t).leader_index = room.leader_index →
        (room.update t).term = room.term) := by
  cases hL : room.leader_index with
  | none =>
    rcases update_of_leader_none room t hL with ⟨_, hterm⟩
    exact ⟨Nat.le_of_eq hterm.symm, fun _ => hterm⟩
  | some a =>
    have hstart : TermInv a room.term room :=
      ⟨hwf, hlive, Nat.le_refl _, Or.inl ⟨hL, rfl⟩⟩
    have h2 := TermInv_disconnect_phase (TermInv_refresh t hstart)
    have h3 := TermInv_election_phase h2
    have hu : room.update t = (room.refresh_connections t).disconnect_phase.election_phase := rfl
    rw [hu]
    exact ⟨h3.1, h3.2⟩

end ConclaveRoom

namespace ConclaveRoom

/-! ## Characterizations of the checks -/

theorem has_most_iff (room : Room) :
    room.has_most_lost_connection_to_leader = true ↔
      2 * (room.connections.filter (fun p =>
          decide (p.2.has_connection_host = ConnectionToLeader.Disconnected ∧
                  p.2.last_reported_term = room.term))).length
        > room.connections.length := by
  unfold Room.has_most_lost_connection_to_leader
  rw [decide_eq_true_eq]
  omega

theorem is_possble_iff (room : Room) :
    room.is_possble_to_switch_leader = true ↔
      (1 < room.connections.length ∨ room.config.allowed_to_remove_single_leader = true) := by
  unfold Room.is_possble_to_switch_leader
  simp [Bool.or_eq_true, decide_eq_true_eq]

/-- Unfolding of `create_connection` in terms of the bumped id hint. -/
theorem create_connection_eq (room : Room) (t : Instant) :
    room.create_connection t =
      (match findUniqueFrom room.connections ((room.id + 1) % IDENTIFIER_SPACE)
          IDENTIFIER_SPACE with
       | none => none
       | some connection_id =>
          some ({ room with
                  id := (room.id + 1) % IDENTIFIER_SPACE,
                  connections :=
                    assocInsert room.connections ((room.id + 1) % IDENTIFIER_SPACE)
                      (Connection.new connection_id room.term t
                        room.config.pings_per_second_threshold),
                  leader_index :=
                    match room.leader_index with
                    | none => some ((room.id + 1) % IDENTIFIER_SPACE)
                    | some l => some l },
                (room.id + 1) % IDENTIFIER_SPACE)) := rfl

end ConclaveRoom

namespace ConclaveRoom

/-! ## Claim theorems: the simpler checks -/

/-- C3: with a leader present, the down-vote check fires if and only if the
number of connections whose last reported leader link is `Disconnected` and
whose last reported term equals the room's current term is strictly greater
than half the total connection count; connections on a stale term are not in
the counted set. -/
theorem down_vote_fires_iff_strict_majority_current_term (room : Room) (l : Nat)
    (h : room.leader_index = some l) :
    (room.change_leader_if_down_voted).2 = true ↔
      2 * (room.connections.filter (fun p =>
          decide (p.2.has_connection_host = ConnectionToLeader.Disconnected ∧
                  p.2.last_reported_term = room.term))).length
        > room.connections.length := by
  rw [← has_most_iff]
  unfold Room.change_leader_if_down_voted
  rw [h]
  by_cases hm : room.has_most_lost_connection_to_leader = true
  · simp [hm]
  · simp [hm]

/-- C9: `is_abandoned(now)` is true exactly when no ping was ever received
or the elapsed time since the last recorded ping strictly exceeds the fixed
2-second abandonment timeout. -/
theorem is_abandoned_iff_never_pinged_or_timeout (room : Room) (now : Instant) :
    room.is_abandoned now = true ↔
      (room.latest_ping_timestamp = none ∨
        ∃ prev, room.latest_ping_timestamp = some prev ∧
          ABANDONED_TIMEOUT_MS < now - prev) := by
  unfold Room.is_abandoned
  cases h : room.latest_ping_timestamp with
  | none => simp
  | some prev => simp [decide_eq_true_eq]

/-- C7: the non-responsive-leader check triggers reselection if and only if
a leader is present, its own quality assessment is `RecommendDisconnect`
(the spec's `poor`), and removal is structurally possible: more than one
connection, or the sole-leader-removal override enabled. -/
theorem non_responsive_check_iff (room : Room) (hlive : room.leaderLive) :
    room.switch_leader_if_non_responsive =
        room.switch_leader_to_best_knowledge_and_quality ↔
      ((match room.leader_index with
        | none => False
        | some l =>
          match assocGet room.connections l with
          | none => False
          | some c => c.assessment = QualityAssessment.RecommendDisconnect) ∧
       (1 < room.connections.length ∨
         room.config.allowed_to_remove_single_leader = true)) := by
  cases hL : room.leader_index with
  | none =>
    constructor
    · intro h
      rw [non_responsive_of_leader_none room hL] at h
      exact absurd h.symm (switch_ne_self room)
    · intro h
      exact h.1.elim
  | some l =>
    have hmem : l ∈ room.keyList := (leaderLive_iff room).mp hlive l hL
    rcases assocGet_eq_some_of_mem_keys hmem with ⟨c, hc⟩
    have hchar : room.switch_leader_if_non_responsive =
        (if c.assessment = QualityAssessment.RecommendDisconnect ∧
            room.is_possble_to_switch_leader = true then
          room.switch_leader_to_best_knowledge_and_quality
        else room) := by
      unfold Room.switch_leader_if_non_responsive
      rw [hL]
      dsimp only
      rw [hc]
    rw [hchar]
    simp only [hc]
    by_cases hcond : c.assessment = QualityAssessment.RecommendDisconnect ∧
        room.is_possble_to_switch_leader = true
    · rw [if_pos hcond]
      constructor
      · exact fun _ => ⟨hcond.1, (is_possble_iff room).mp hcond.2⟩
      · exact fun _ => rfl
    · rw [if_neg hcond]
      constructor
      · intro h
        exact absurd h.symm (switch_ne_self room)
      · intro h
        exact absurd ⟨h.1, (is_possble_iff room).mpr h.2⟩ hcond

/-- C6: within a single `update` sweep, when the down-vote check fires on
the post-disconnect-phase state, the sweep's result is exactly that one
reselection (the non-responsive check is skipped); and steps (3)–(4)
together either leave the state unchanged or perform exactly one
reselection. -/
theorem update_sweep_single_leadership_change (room : Room) (t : Instant) :
    ((((room.refresh_connections t).disconnect_phase.change_leader_if_down_voted).2 = true →
      room.update t =
        (room.refresh_connections t).disconnect_phase.switch_leader_to_best_knowledge_and_quality)) ∧
    (room.update t = (room.refresh_connections t).disconnect_phase ∨
      room.update t =
        (room.refresh_connections t).disconnect_phase.switch_leader_to_best_knowledge_and_quality) := by
  have hu : room.update t = ((room.refresh_connections t).disconnect_phase).election_phase := rfl
  constructor
  · intro hfire
    rw [hu]
    unfold Room.election_phase
    rcases change_leader_cases ((room.refresh_connections t).disconnect_phase) with hc | ⟨hc, l, hl⟩
    · rw [hc] at hfire
      cases hfire
    · rw [hc]
      rfl
  · rw [hu]
    unfold Room.election_phase
    rcases change_leader_cases ((room.refresh_connections t).disconnect_phase) with hc | ⟨hc, l, hl⟩
    · rw [hc]
      simp only [Bool.false_eq_true, if_false]
      rcases non_responsive_cases ((room.refresh_connections t).disconnect_phase) with h2 | ⟨h2, _⟩
      · exact Or.inl h2
      · exact Or.inr h2
    · rw [hc]
      exact Or.inr rfl

end ConclaveRoom

namespace ConclaveRoom

/-! ## Helpers for `on_ping` and `create_connection` -/

/-- On an unknown id, `on_ping` has already written the timestamp when the
lookup fails. -/
theorem on_ping_failure_eq (room : Room) (i : Nat) (tm : Term)
    (lk : ConnectionToLeader) (kn : Knowledge) (t : Instant)
    (h : assocGet room.connections i = none) :
    room.on_ping i tm lk kn t = ({ room with latest_ping_timestamp := some t }, false) := by
  unfold Room.on_ping
  dsimp only
  rw [h]

theorem on_ping_success_eq (room : Room) {k : Nat} {c : Connection} (tm : Term)
    (lk : ConnectionToLeader) (kn : Knowledge) (t : Instant)
    (hget : assocGet room.connections k = some c) :
    room.on_ping k tm lk kn t =
      (Room.update
        { room with
          latest_ping_timestamp := some t,
          connections := assocInsert room.connections k (c.on_ping tm lk kn t) } t,
        true) := by
  unfold Room.on_ping
  dsimp only
  rw [hget]

theorem on_ping_mid_state_wf_live (room : Room) {k : Nat} {c : Connection}
    (hwf : room.wf) (hlive : room.leaderLive)
    (hget : assocGet room.connections k = some c)
    (tm : Term) (lk : ConnectionToLeader) (kn : Knowledge) (t : Instant) :
    Room.wf { room with
        latest_ping_timestamp := some t,
        connections := assocInsert room.connections k (c.on_ping tm lk kn t) } ∧
    Room.leaderLive { room with
        latest_ping_timestamp := some t,
        connections := assocInsert room.connections k (c.on_ping tm lk kn t) } := by
  have hck : c.id = k := hwf.2 (k, c) (mem_of_assocGet_eq_some hget)
  constructor
  · constructor
    · show ((assocInsert room.connections k (c.on_ping tm lk kn t)).map Prod.fst).Nodup
      exact nodup_map_fst_assocInsert hwf.1
    · intro p hp
      rcases mem_assocInsert hp with h | h
      · rw [h]
        exact hck
      · exact hwf.2 p h
  · rw [leaderLive_iff]
    intro m hm
    show m ∈ (assocInsert room.connections k (c.on_ping tm lk kn t)).map Prod.fst
    exact mem_map_fst_assocInsert.mpr (Or.inr ((leaderLive_iff room).mp hlive m hm))

/-- Conjunct shape for claims about the result of `create_connection`: the
new room keeps a live leader. -/
def createResultLive (room : Room) (t : Instant) : Prop :=
  match room.create_connection t with
  | none => True
  | some (r, _) => r.leaderLive

/-- Conjunct shape for claims about the result of `create_connection`: the
term is unchanged. -/
def createResultTermUnchanged (room : Room) (t : Instant) : Prop :=
  match room.create_connection t with
  | none => True
  | some (r, _) => r.term = room.term

theorem create_preserves_leaderLive (room : Room) (t : Instant)
    (hlive : room.leaderLive) : createResultLive room t := by
  unfold createResultLive
  rw [create_connection_eq]
  cases hf : findUniqueFrom room.connections ((room.id + 1) % IDENTIFIER_SPACE)
      IDENTIFIER_SPACE with
  | none => trivial
  | some cid =>
    dsimp only
    rw [leaderLive_iff]
    intro m hm
    show m ∈ (assocInsert room.connections ((room.id + 1) % IDENTIFIER_SPACE)
      (Connection.new cid room.term t room.config.pings_per_second_threshold)).map Prod.fst
    rw [mem_map_fst_assocInsert]
    cases hL : room.leader_index with
    | none =>
      rw [hL] at hm
      dsimp only at hm
      exact Or.inl (Option.some.inj hm).symm
    | some L =>
      rw [hL] at hm
      dsimp only at hm
      rw [← Option.some.inj hm]
      exact Or.inr ((leaderLive_iff room).mp hlive L hL)

theorem create_term_unchanged (room : Room) (t : Instant) :
    createResultTermUnchanged room t := by
  unfold createResultTermUnchanged
  rw [create_connection_eq]
  cases hf : findUniqueFrom room.connections ((room.id + 1) % IDENTIFIER_SPACE)
      IDENTIFIER_SPACE with
  | none => trivial
  | some cid => exact rfl

/-- Conjunct shape for C8: when the result exists, the returned index is the
leader, the term is unchanged, and the entry stored under the returned index
is the connection freshly created at the room's current term with the id
computed by the uniqueness scan. -/
def createdLeaderImmediately (room : Room) (t : Instant) : Prop :=
  match room.create_connection t with
  | none => True
  | some (r, newId) =>
      r.leader_index = some newId ∧
      r.term = room.term ∧
      assocGet r.connections newId =
        some (Connection.new
          ((findUniqueFrom room.connections ((room.id + 1) % IDENTIFIER_SPACE)
            IDENTIFIER_SPACE).getD 0)
          room.term t room.config.pings_per_second_threshold)

end ConclaveRoom

namespace ConclaveRoom

/-! ## Claim theorems: admission, errors and the sweep invariants -/

/-- C8: in a room without a leader, `create_connection` makes the returned
index the leader immediately, leaves the term unchanged, and the entry
stored under the returned index is the freshly created connection. -/
theorem first_leader_assignment_no_term_advance (room : Room) (t : Instant)
    (h : room.leader_index = none) : createdLeaderImmediately room t := by
  unfold createdLeaderImmediately
  rw [create_connection_eq]
  cases hf : findUniqueFrom room.connections ((room.id + 1) % IDENTIFIER_SPACE)
      IDENTIFIER_SPACE with
  | none => trivial
  | some cid =>
    dsimp only
    rw [h]
    refine ⟨rfl, rfl, ?_⟩
    exact assocGet_assocInsert_self room.connections ((room.id + 1) % IDENTIFIER_SPACE) _

/-- C5 counterexample: on an unknown id, `on_ping` fails but has already
mutated the room: `latest_ping_timestamp` was written before the failing
lookup, so the failed call does not leave the room unmodified. -/
theorem on_ping_unknown_id_leaves_room_modified :
    (Room.default.on_ping 0 0 ConnectionToLeader.Unknown 0 5).2 = false ∧
    (Room.default.on_ping 0 0 ConnectionToLeader.Unknown 0 5).1 ≠ Room.default ∧
    (Room.default.on_ping 0 0 ConnectionToLeader.Unknown 0 5).1.latest_ping_timestamp
      = some 5 := by
  decide

/-- C5 (amended): on an unknown id, `on_ping` fails, and the failure leaves
every field of the room unchanged except `latest_ping_timestamp`, which has
already been set to the ping time. -/
theorem on_ping_unknown_id_mutates_only_timestamp (room : Room) (i : Nat) (tm : Term)
    (lk : ConnectionToLeader) (kn : Knowledge) (t : Instant)
    (h : assocGet room.connections i = none) :
    room.on_ping i tm lk kn t =
      ({ room with latest_ping_timestamp := some t }, false) :=
  on_ping_failure_eq room i tm lk kn t h

/-- A room state with the id hint at the top of the `u16` space and a live
connection stored at key 0.  Reachable by wrapping the hint: `2^16`
admissions fill the identifier space and wrap the hint to 0; destroying ids
1–65535, re-admitting 65535 times and destroying those again parks the hint
at 65535 with key 0 still live.  Only the hint and the registry matter for
the behaviour shown below; the remaining fields play no role. -/
def wrap_around_room : Room :=
  { id := 65535
    connections := [(0, Connection.new 0 0 0 5)]
    leader_index := some 0
    term := 0
    config := RoomConfig.default
    latest_ping_timestamp := none }

/-- C1: key 0 is live, yet `create_connection` succeeds returning index 0:
it inserts the new connection under the already-present key 0 (the raw
incremented hint), silently overwriting the live connection there, even
though the uniqueness scan had computed the free id 1 — which survives only
as the stored connection's internal id.  The registry still has a single
entry afterwards instead of two. -/
theorem create_connection_overwrites_live_connection :
    assocContains wrap_around_room.connections 0 = true ∧
    (wrap_around_room.create_connection 0).map (fun rp =>
      (rp.2, rp.1.keyList, rp.1.connections.map (fun p => p.2.id))) =
      some (0, [0], [1]) := by
  decide

/-- C10: a leaderless room stays leaderless with an unchanged term across a
full `update` sweep, for every configuration and connection population. -/
theorem leaderless_update_stays_leaderless (room : Room) (t : Instant)
    (h : room.leader_index = none) :
    (room.update t).leader_index = none ∧ (room.update t).term = room.term :=
  update_of_leader_none room t h

/-- Preservation lemma: on a well-formed registry (distinct keys, each
connection's internal id equal to its key — the states the wraparound
overwrite has not corrupted), each public operation — `create_connection`,
`destroy_connection`, `update` and `on_ping` — again yields a room whose
leader, whenever present, keys an existing entry of the registry. -/
theorem leader_keys_live_connection_invariant (room : Room) (t : Instant) (i k : Nat)
    (tm : Term) (lk : ConnectionToLeader) (kn : Knowledge)
    (hwf : room.wf) (hlive : room.leaderLive) :
    createResultLive room t ∧
    (room.destroy_connection i).leaderLive ∧
    (room.update t).leaderLive ∧
    (room.on_ping k tm lk kn t).1.leaderLive := by
  refine ⟨create_preserves_leaderLive room t hlive,
    destroy_preserves_leaderLive room i hwf hlive,
    (update_preserves_wf_leaderLive room t hwf hlive).2, ?_⟩
  cases hget : assocGet room.connections k with
  | none =>
    rw [on_ping_failure_eq room k tm lk kn t hget]
    rw [leaderLive_iff]
    intro m hm
    show m ∈ room.connections.map Prod.fst
    exact (leaderLive_iff room).mp hlive m hm
  | some c =>
    rw [on_ping_success_eq room tm lk kn t hget]
    rcases on_ping_mid_state_wf_live room hwf hlive hget tm lk kn t with ⟨h1, h2⟩
    exact (update_preserves_wf_leaderLive _ t h1 h2).2

/-- Preservation lemma: on a well-formed registry with a live leader
reference, over each public operation the term never decreases, and if the
leader field ends the operation unchanged then the term is unchanged as well
(the term moves only together with a leader change on uncorrupted states). -/
theorem term_monotone_and_changes_only_with_leader (room : Room) (t : Instant) (i k : Nat)
    (tm : Term) (lk : ConnectionToLeader) (kn : Knowledge)
    (hwf : room.wf) (hlive : room.leaderLive) :
    createResultTermUnchanged room t ∧
    (room.term ≤ (room.destroy_connection i).term ∧
      ((room.destroy_connection i).leader_index = room.leader_index →
        (room.destroy_connection i).term = room.term)) ∧
    (room.term ≤ (room.update t).term ∧
      ((room.update t).leader_index = room.leader_index →
        (room.update t).term = room.term)) ∧
    (room.term ≤ (room.on_ping k tm lk kn t).1.term ∧
      ((room.on_ping k tm lk kn t).1.leader_index = room.leader_index →
        (room.on_ping k tm lk kn t).1.term = room.term)) := by
  refine ⟨create_term_unchanged room t, ?_, update_term_lemma room t hwf hlive, ?_⟩
  · cases hL : room.leader_index with
    | none =>
      rcases destroy_of_leader_none room i hL with ⟨h1, h2⟩
      exact ⟨Nat.le_of_eq h2.symm, fun _ => h2⟩
    | some L =>
      by_cases hLi : L = i
      · subst hLi
        rcases destroy_of_leader_eq room hL with ⟨h1, h2⟩
        refine ⟨by rw [h2]; exact Nat.le_succ _, fun hld => ?_⟩
        exfalso
        rw [h1] at hld
        rcases best_candidate_spec hld with ⟨p, _, _, hne⟩
        exact hne L rfl rfl
      · rcases destroy_of_leader_ne room hL hLi with ⟨h1, h2⟩
        exact ⟨Nat.le_of_eq h2.symm, fun _ => h2⟩
  · cases hget : assocGet room.connections k with
    | none =>
      rw [on_ping_failure_eq room k tm lk kn t hget]
      exact ⟨Nat.le_refl _, fun _ => rfl⟩
    | some c =>
      rw [on_ping_success_eq room tm lk kn t hget]
      rcases on_ping_mid_state_wf_live room hwf hlive hget tm lk kn t with ⟨h1, h2⟩
      exact update_term_lemma _ t h1 h2

end ConclaveRoom

namespace ConclaveRoom

/-! ## Concrete witness states -/

/-- A well-formed two-member room with a live leader. -/
def witness_room_pair : Room :=
  { id := 2
    connections := [(1, Connection.new 1 0 0 5), (2, Connection.new 2 0 0 5)]
    leader_index := some 1
    term := 0
    config := RoomConfig.default
    latest_ping_timestamp := none }

/-- A three-member room in which two connections report a lost link to the
leader on the current term. -/
def witness_room_votes : Room :=
  { id := 3
    connections :=
      [(1, Connection.new 1 0 0 5),
       (2, { Connection.new 2 0 0 5 with
              has_connection_host := ConnectionToLeader.Disconnected }),
       (3, { Connection.new 3 0 0 5 with
              has_connection_host := ConnectionToLeader.Disconnected })]
    leader_index := some 1
    term := 0
    config := RoomConfig.default
    latest_ping_timestamp := none }

/-- A two-member room whose leader is currently assessed
`RecommendDisconnect`. -/
def witness_room_poor_leader : Room :=
  { id := 2
    connections :=
      [(1, { Connection.new 1 0 0 5 with
              quality := { ConnectionQuality.new 5 0 with
                assessment := QualityAssessment.RecommendDisconnect } }),
       (2, Connection.new 2 0 0 5)]
    leader_index := some 1
    term := 0
    config := RoomConfig.default
    latest_ping_timestamp := none }

/-- Instantiation of the live-leader preservation lemma on a concrete
well-formed room. -/
theorem leader_keys_live_connection_invariant_witness :
    witness_room_pair.wf ∧ witness_room_pair.leaderLive ∧
      (createResultLive witness_room_pair 0 ∧
       (witness_room_pair.destroy_connection 1).leaderLive ∧
       (witness_room_pair.update 0).leaderLive ∧
       (witness_room_pair.on_ping 2 0 ConnectionToLeader.Connected 7 0).1.leaderLive) :=
  ⟨by decide, by decide,
    leader_keys_live_connection_invariant witness_room_pair 0 1 2 0
      ConnectionToLeader.Connected 7 (by decide) (by decide)⟩

/-- Witness instantiating C3 on a room with a strict current-term majority. -/
theorem down_vote_fires_iff_strict_majority_current_term_witness :
    witness_room_votes.leader_index = some 1 ∧
      ((witness_room_votes.change_leader_if_down_voted).2 = true ↔
        2 * (witness_room_votes.connections.filter (fun p =>
            decide (p.2.has_connection_host = ConnectionToLeader.Disconnected ∧
                    p.2.last_reported_term = witness_room_votes.term))).length
          > witness_room_votes.connections.length) :=
  ⟨rfl, down_vote_fires_iff_strict_majority_current_term witness_room_votes 1 rfl⟩

/-- Instantiation of the term/leader preservation lemma on a concrete
well-formed room. -/
theorem term_monotone_and_changes_only_with_leader_witness :
    witness_room_pair.wf ∧ witness_room_pair.leaderLive ∧
      (createResultTermUnchanged witness_room_pair 0 ∧
       (witness_room_pair.term ≤ (witness_room_pair.destroy_connection 1).term ∧
         ((witness_room_pair.destroy_connection 1).leader_index =
             witness_room_pair.leader_index →
           (witness_room_pair.destroy_connection 1).term = witness_room_pair.term)) ∧
       (witness_room_pair.term ≤ (witness_room_pair.update 0).term ∧
         ((witness_room_pair.update 0).leader_index = witness_room_pair.leader_index →
           (witness_room_pair.update 0).term = witness_room_pair.term)) ∧
       (witness_room_pair.term ≤
           (witness_room_pair.on_ping 2 0 ConnectionToLeader.Connected 7 0).1.term ∧
         ((witness_room_pair.on_ping 2 0 ConnectionToLeader.Connected 7 0).1.leader_index =
             witness_room_pair.leader_index →
           (witness_room_pair.on_ping 2 0 ConnectionToLeader.Connected 7 0).1.term =
             witness_room_pair.term))) :=
  ⟨by decide, by decide,
    term_monotone_and_changes_only_with_leader witness_room_pair 0 1 2 0
      ConnectionToLeader.Connected 7 (by decide) (by decide)⟩

/-- Witness instantiating the amended C5 on a concrete unknown id. -/
theorem on_ping_unknown_id_mutates_only_timestamp_witness :
    assocGet Room.default.connections 0 = none ∧
    Room.default.on_ping 0 0 ConnectionToLeader.Unknown 0 5 =
      ({ Room.default with latest_ping_timestamp := some 5 }, false) :=
  ⟨rfl, on_ping_unknown_id_mutates_only_timestamp Room.default 0 0
    ConnectionToLeader.Unknown 0 5 rfl⟩

/-- Witness instantiating C6 on a room whose down-vote check fires. -/
theorem update_sweep_single_leadership_change_witness :
    ((witness_room_votes.refresh_connections 0).disconnect_phase.change_leader_if_down_voted).2
        = true ∧
    witness_room_votes.update 0 =
      (witness_room_votes.refresh_connections 0).disconnect_phase.switch_leader_to_best_knowledge_and_quality :=
  ⟨by decide, (update_sweep_single_leadership_change witness_room_votes 0).1 (by decide)⟩

/-- Witness instantiating C7 on a room with a poor-quality leader. -/
theorem non_responsive_check_iff_witness :
    witness_room_poor_leader.leaderLive ∧
      (witness_room_poor_leader.switch_leader_if_non_responsive =
          witness_room_poor_leader.switch_leader_to_best_knowledge_and_quality ↔
        ((match witness_room_poor_leader.leader_index with
          | none => False
          | some l =>
            match assocGet witness_room_poor_leader.connections l with
            | none => False
            | some c => c.assessment = QualityAssessment.RecommendDisconnect) ∧
         (1 < witness_room_poor_leader.connections.length ∨
           witness_room_poor_leader.config.allowed_to_remove_single_leader = true))) :=
  ⟨by decide, non_responsive_check_iff witness_room_poor_leader (by decide)⟩

/-- Witness instantiating C8 on the freshly built default room. -/
theorem first_leader_assignment_no_term_advance_witness :
    Room.default.leader_index = none ∧ createdLeaderImmediately Room.default 0 :=
  ⟨rfl, first_leader_assignment_no_term_advance Room.default 0 rfl⟩

/-- Witness instantiating C10 on the leaderless default room. -/
theorem leaderless_update_stays_leaderless_witness :
    Room.default.leader_index = none ∧
      ((Room.default.update 3).leader_index = none ∧
       (Room.default.update 3).term = Room.default.term) :=
  ⟨rfl, leaderless_update_stays_leaderless Room.default 3 rfl⟩

end ConclaveRoom

namespace ConclaveRoom

/-! ## Consequences of the wraparound overwrite: dangling leader and a
double term advance without a net leader change -/

/-- The state `create_connection` produces from `wrap_around_room`: the live
connection at key 0 has been overwritten by a connection whose internal id
is 1 (the scanned unique id), so the registry's key and internal id
diverge. -/
def corrupted_room : Room :=
  { id := 0
    connections := [(0, Connection.new 1 0 0 5)]
    leader_index := some 0
    term := 0
    config := RoomConfig.default
    latest_ping_timestamp := none }

/-- C2: the live-leader claim fails on the code.  From the wraparound state,
one admission yields `corrupted_room` (key 0 now holds a connection with
internal id 1), and destroying the leader (key 0) then reselects by internal
id: the leader becomes `some 1` while key 0 — the only entry — is removed,
so the operation ends with a present leader and an empty registry: a
dangling leader after a public operation. -/
theorem destroy_after_wraparound_dangles_leader :
    wrap_around_room.create_connection 0 = some (corrupted_room, 0) ∧
    (corrupted_room.destroy_connection 0).leader_index = some 1 ∧
    (corrupted_room.destroy_connection 0).connections = [] ∧
    ¬ (corrupted_room.destroy_connection 0).leaderLive := by
  decide

/-- A corrupted registry of the shape the wraparound overwrite produces: the
connections at keys 0 and 3 share the internal id 0 (one more admission from
`corrupted_room` already yields such a duplicate), the leader is the entry
at key 0, and the configuration destroys disconnected connections.  The
connections at keys 3 and 7 report a lost leader link on term 6; the leader
entry has been silent for its whole measurement window. -/
def duplicate_id_room : Room :=
  { id := 9
    connections :=
      [(0, { id := 0
             quality := { pings_per_second_threshold := 5, windowStart := 0, pingCount := 0,
                          assessment := QualityAssessment.NotEnoughData }
             knowledge := 0
             state := ConnectionState.Online
             last_reported_term := 5
             has_connection_host := ConnectionToLeader.Unknown }),
       (3, { id := 0
             quality := { pings_per_second_threshold := 5, windowStart := 1000, pingCount := 0,
                          assessment := QualityAssessment.NotEnoughData }
             knowledge := 4
             state := ConnectionState.Online
             last_reported_term := 6
             has_connection_host := ConnectionToLeader.Disconnected }),
       (7, { id := 7
             quality := { pings_per_second_threshold := 5, windowStart := 1000, pingCount := 0,
                          assessment := QualityAssessment.NotEnoughData }
             knowledge := 9
             state := ConnectionState.Online
             last_reported_term := 6
             has_connection_host := ConnectionToLeader.Disconnected })]
    leader_index := some 0
    term := 5
    config := { allowed_to_remove_single_leader := false
                pings_per_second_threshold := 5
                disconnect_bad_connections := true
                destroy_disconnected_connections := true }
    latest_ping_timestamp := none }

section

attribute [local semireducible] Rat.mul Rat.inv

/-- C4: the term/leader coupling fails on the code.  In `duplicate_id_room`
a single `update` sweep first destroys the silent leader's entry
(reselecting to internal id 7, term 5 → 6) and then the down-vote quorum
fires (reselecting back to the duplicate internal id 0, term 6 → 7): the
operation completes with the leader field at its initial value `some 0`
while the term advanced twice. -/
theorem update_advances_term_twice_with_leader_restored :
    duplicate_id_room.leader_index = some 0 ∧
    duplicate_id_room.term = 5 ∧
    (duplicate_id_room.update 1000).leader_index = some 0 ∧
    (duplicate_id_room.update 1000).term = 7 := by
  decide

end

end ConclaveRoom
